import Mathlib

/-!
Verification of the simplicial configuration model (SCM) sampler.

The repository ships a tutorial notebook (`tutorial_notebook.ipynb`) whose
Python helpers are embedded below (`facet_list_to_graph`,
`rejection_sampling`).  The sampling core itself (sequence validator,
bipartite configuration builder, validity checker, rejection sampler, swap
proposal engine, MCMC sampler) is an external C++ binary not present in the
repository sources, so those components are modelled from the specification
document, faithful to its words.  A raw Configuration is a list of facets,
each facet a multiset of vertex indices (the builder can produce repeated
vertices inside one facet; the validity checker deduplicates, per spec
section 4.3a).
-/

/-- Modelled from the spec (section 7): the error taxonomy of the sampling
core, which is not present in the repository sources. -/
inductive SCMError where
  | infeasibleSequence
  | samplingExhausted
  | invariantViolation
deriving DecidableEq, Repr

/-- A raw Configuration: one multiset of member vertices per facet. -/
abbrev RawConfig := List (Multiset Nat)

/-- Modelled from the spec (section 4.1): the Sequence Validator for the
degree sequence d and size sequence s, a component missing from the
repository sources.  Fails with InfeasibleSequence when the stub totals
differ, any entry is non-positive, any size exceeds the number of vertices,
or any degree exceeds the number of facets; otherwise returns the pair
unchanged. -/
def validateSequences (d s : List Int) : Except SCMError (List Int × List Int) :=
  if d.sum ≠ s.sum then .error .infeasibleSequence
  else if d.any (fun x => decide (x ≤ 0)) then .error .infeasibleSequence
  else if s.any (fun x => decide (x ≤ 0)) then .error .infeasibleSequence
  else if s.any (fun x => decide ((d.length : Int) < x)) then .error .infeasibleSequence
  else if d.any (fun x => decide ((s.length : Int) < x)) then .error .infeasibleSequence
  else .ok (d, s)

/-- Helper for `vertexStubs`: stubs for vertices numbered from v0 upward. -/
def vertexStubsAux : Nat → List Nat → List Nat
  | _, [] => []
  | v0, deg :: rest => List.replicate deg v0 ++ vertexStubsAux (v0 + 1) rest

/-- Modelled from the spec (section 4.2): the vertex-stub sequence, in which
vertex v appears exactly d[v] times. -/
def vertexStubs (d : List Nat) : List Nat :=
  vertexStubsAux 0 d

/-- Modelled from the spec (section 4.2): the Bipartite Configuration
Builder, a component missing from the repository sources.  Given the size
sequence and a (shuffled) vertex-stub sequence, facet f receives the
contiguous block of s[f] stubs at its offset; duplicate vertices inside one
facet are kept as multiset multiplicity so that the checker can flag them. -/
def buildConfig : List Nat → List Nat → RawConfig
  | [], _ => []
  | k :: s, stubs => (↑(stubs.take k) : Multiset Nat) :: buildConfig s (stubs.drop k)

/-- Modelled from the spec (section 4.3a): each facet's vertex multiset, once
deduplicated, has exactly s[f] elements. -/
def noMultiMembership (s : List Nat) (C : RawConfig) : Bool :=
  (C.length == s.length) &&
    (C.zip s).all fun p => p.1.toFinset.card == p.2

/-- Modelled from the spec (section 4.3b): no two facets have identical
vertex-set content. -/
def noDuplicateFacets : List (Finset Nat) → Bool
  | [] => true
  | F :: rest => (rest.all fun G => !(decide (F = G))) && noDuplicateFacets rest

/-- Modelled from the spec (section 4.3c): no facet's vertex set is a subset
of another facet's vertex set (both directions of every pair). -/
def noContainment : List (Finset Nat) → Bool
  | [] => true
  | F :: rest =>
      (rest.all fun G => !(decide (F ⊆ G)) && !(decide (G ⊆ F))) && noContainment rest

/-- The realized vertex sets of a raw Configuration. -/
def facetSets (C : RawConfig) : List (Finset Nat) :=
  C.map Multiset.toFinset

/-- Modelled from the spec (section 4.3): the Validity Checker, a component
missing from the repository sources.  Short-circuit conjunction of checks
(a), (b) and (c). -/
def checkValidity (s : List Nat) (C : RawConfig) : Bool :=
  noMultiMembership s C && noDuplicateFacets (facetSets C) && noContainment (facetSets C)

/-- Modelled from the spec (section 4.4): the bounded rejection loop, a
component missing from the repository sources.  `fuel` attempts remain and
`i` is the index of the next candidate drawn from the builder. -/
def rejectionAux (s : List Nat) (cand : Nat → RawConfig) : Nat → Nat → Except SCMError RawConfig
  | 0, _ => .error .samplingExhausted
  | fuel + 1, i =>
      if checkValidity s (cand i) then .ok (cand i)
      else rejectionAux s cand fuel (i + 1)

/-- Modelled from the spec (section 4.4): the Rejection Sampler over a
stream of builder candidates, with attempt cap `cap`. -/
def rejectionSample (s : List Nat) (cand : Nat → RawConfig) (cap : Nat) :
    Except SCMError RawConfig :=
  rejectionAux s cand cap 0

/-- Modelled from the spec (section 4.5): one swap proposal, naming the two
facets and the two vertices to exchange. -/
structure SwapMove where
  f1 : Nat
  f2 : Nat
  v1 : Nat
  v2 : Nat
deriving DecidableEq, Repr

/-- Modelled from the spec (section 4.5): the proposed Configuration, equal
to C except that v1 moves from facet f1 to facet f2 and v2 moves from facet
f2 to facet f1. -/
def applySwap (C : RawConfig) (f1 f2 v1 v2 : Nat) : RawConfig :=
  (C.set f1 (v2 ::ₘ (C.getD f1 0).erase v1)).set f2 (v1 ::ₘ (C.getD f2 0).erase v2)

/-- Modelled from the spec (section 4.5): the admissibility conditions the
Swap Proposal Engine guarantees by construction — two distinct facets, each
chosen vertex a member of its facet, and the two vertices distinct. -/
def admissibleB (C : RawConfig) (p : SwapMove) : Bool :=
  decide (p.f1 < C.length) && decide (p.f2 < C.length) && !(p.f1 == p.f2) &&
    decide (p.v1 ∈ C.getD p.f1 0) && decide (p.v2 ∈ C.getD p.f2 0) && !(p.v1 == p.v2)

/-- Modelled from the spec (section 4.6): one chain step of the MCMC
Sampler — apply the admissible swap proposal, accept it exactly when the
Validity Checker passes, otherwise keep the current state (a self-loop). -/
def mcmcStep (s : List Nat) (C : RawConfig) (p : SwapMove) : RawConfig :=
  if admissibleB C p then
    let C' := applySwap C p.f1 p.f2 p.v1 p.v2
    if checkValidity s C' then C' else C
  else C

/-- Modelled from the spec (section 4.6): the chain state after k steps,
where `props` supplies the proposal drawn at each step from the current
state. -/
def mcmcStates (s : List Nat) (C0 : RawConfig) (props : Nat → RawConfig → SwapMove) :
    Nat → RawConfig
  | 0 => C0
  | k + 1 => mcmcStep s (mcmcStates s C0 props k) (props k (mcmcStates s C0 props k))

/-- Modelled from the spec (section 4.6): the emitted samples — after
`burnIn` discarded steps, every `thin`-th state is emitted, `numSamples`
times. -/
def mcmcSamples (s : List Nat) (C0 : RawConfig) (props : Nat → RawConfig → SwapMove)
    (burnIn thin numSamples : Nat) : List RawConfig :=
  (List.range numSamples).map fun i => mcmcStates s C0 props (burnIn + (i + 1) * thin)

/-- Modelled from the spec (sections 5 and 9): a 64-bit linear congruential
step, the explicitly seeded random source. -/
def lcg (x : Nat) : Nat :=
  (6364136223846793005 * x + 1442695040888963407) % (2 ^ 64)

/-- The k-th draw of the seeded random stream. -/
def lcgStream (seed : Nat) : Nat → Nat
  | 0 => lcg seed
  | k + 1 => lcg (lcgStream seed k)

/-- Insert x at position j of a list (inside-out Fisher-Yates helper). -/
def insertAt (l : List Nat) (j : Nat) (x : Nat) : List Nat :=
  l.take j ++ x :: l.drop j

/-- Inside-out Fisher-Yates over the remaining elements; `k` indexes the
random stream. -/
def shuffleAux (r : Nat → Nat) : Nat → List Nat → List Nat → List Nat
  | _, acc, [] => acc
  | k, acc, x :: rest => shuffleAux r (k + 1) (insertAt acc (r k % (acc.length + 1)) x) rest

/-- Modelled from the spec (section 4.2): the uniformly random permutation of
the stub sequence, drawn deterministically from the seeded stream. -/
def shuffle (r : Nat → Nat) (l : List Nat) : List Nat :=
  shuffleAux r 0 [] l

/-- The i-th shuffled vertex-stub sequence produced from the seed. -/
def seededPerms (d : List Nat) (seed : Nat) (i : Nat) : List Nat :=
  shuffle (fun k => lcgStream seed (i * (vertexStubs d).length + k)) (vertexStubs d)

/-- Modelled from the spec (sections 4.1 and 4.4): the full rejection-sampler
pipeline — validate the sequences first, then run the bounded rejection
loop on seeded builder candidates. -/
def runRejection (d s : List Int) (seed cap : Nat) : Except SCMError RawConfig :=
  match validateSequences d s with
  | .error e => .error e
  | .ok _ =>
      let dn := d.map Int.toNat
      let sn := s.map Int.toNat
      rejectionSample sn (fun i => buildConfig sn (seededPerms dn seed i)) cap

/-- Modelled from the spec (section 4.5): derive one swap proposal from four
random draws — two distinct facet indices, then one member of each facet
picked by position in its sorted listing. -/
def pickMove (C : RawConfig) (r0 r1 r2 r3 : Nat) : SwapMove :=
  let m := C.length
  let f1 := r0 % m
  let f2p := r1 % (m - 1)
  let f2 := if f1 ≤ f2p then f2p + 1 else f2p
  let F1 := (C.getD f1 0).sort (· ≤ ·)
  let F2 := (C.getD f2 0).sort (· ≤ ·)
  ⟨f1, f2, F1.getD (r2 % F1.length) 0, F2.getD (r3 % F2.length) 0⟩

/-- Modelled from the spec (section 4.6): the full MCMC pipeline — validate,
seed the chain with one rejection-sampler draw, then run the seeded chain
and emit `numSamples` configurations. -/
def runMCMC (d s : List Int) (seed cap burnIn thin numSamples : Nat) :
    Except SCMError (List RawConfig) :=
  match runRejection d s seed cap with
  | .error e => .error e
  | .ok C0 =>
      let sn := s.map Int.toNat
      let r := lcgStream (lcg seed)
      .ok (mcmcSamples sn C0
        (fun k C => pickMove C (r (4 * k)) (r (4 * k + 1)) (r (4 * k + 2)) (r (4 * k + 3)))
        burnIn thin numSamples)

/-- Number of facet slots of C that contain vertex v, counted with
multiplicity inside each facet: the vertex's degree in the bipartite
incidence multigraph (its stub count). -/
def vertexDegree (C : RawConfig) (v : Nat) : Nat :=
  (C.map fun F => F.count v).sum

/-- Number of facets of C that contain vertex v (each facet index counted
once). -/
def facetCount (C : RawConfig) (v : Nat) : Nat :=
  C.countP fun F => decide (v ∈ F)

/-- Spec section 4.3 check (a) as a proposition: every facet's deduplicated
vertex set has exactly s[f] elements. -/
def CheckA (s : List Nat) (C : RawConfig) : Prop :=
  ∀ f < s.length, (C.getD f 0).toFinset.card = s.getD f 0

/-- Spec section 4.3 check (b) as a proposition: no two distinct facets have
identical vertex-set content. -/
def CheckB (C : RawConfig) : Prop :=
  ∀ i < C.length, ∀ j < C.length, i ≠ j →
    (C.getD i 0).toFinset ≠ (C.getD j 0).toFinset

/-- Spec section 4.3 check (c) as a proposition: no facet's vertex set is a
subset of another facet's vertex set. -/
def CheckC (C : RawConfig) : Prop :=
  ∀ i < C.length, ∀ j < C.length, i ≠ j →
    ¬ (C.getD i 0).toFinset ⊆ (C.getD j 0).toFinset

/-- The invariants (spec section 3) an emitted Configuration must satisfy
for the target pair (d, s): realized degrees equal d, realized facet sizes
equal s, no duplicate facets, no facet contained in another. -/
def Invariants (d s : List Nat) (C : RawConfig) : Prop :=
  (∀ v, facetCount C v = d.getD v 0) ∧
    C.length = s.length ∧
    (∀ f < s.length, (C.getD f 0).toFinset.card = s.getD f 0) ∧
    CheckB C ∧ CheckC C

/-- The inductive invariant of the MCMC chain: stub-degrees match d, raw
facet cardinalities match s, and the state passed the Validity Checker. -/
def ChainInv (d s : List Nat) (C : RawConfig) : Prop :=
  (∀ v, vertexDegree C v = d.getD v 0) ∧
    C.length = s.length ∧
    (∀ f < s.length, Multiset.card (C.getD f 0) = s.getD f 0) ∧
    checkValidity s C = true

/-- The infeasibility condition of spec section 4.1, as a proposition. -/
def InfeasibleCond (d s : List Int) : Prop :=
  d.sum ≠ s.sum ∨ (∃ x ∈ d, x ≤ 0) ∨ (∃ x ∈ s, x ≤ 0) ∨
    (∃ x ∈ s, (d.length : Int) < x) ∨ (∃ x ∈ d, (s.length : Int) < x)

/-- Embeds `'v' + str(v)` from the notebook's `facet_list_to_graph`. -/
def vName (v : Int) : String :=
  "v" ++ toString v

/-- Embeds `'f' + str(f)` from the notebook's `facet_list_to_graph`. -/
def fName (f : Nat) : String :=
  "f" ++ toString f

/-- Helper for `facet_list_to_graph`: the edges contributed by the facets
starting at facet index f. -/
def edgesAux : Nat → List (List Int) → List (String × String)
  | _, [] => []
  | f, facet :: rest => (facet.map fun v => (vName v, fName f)) ++ edgesAux (f + 1) rest

/-- Embeds the notebook's `facet_list_to_graph`: for each facet f and each
member v it adds the edge ('v' + str(v), 'f' + str(f)); the graph is the
resulting edge list. -/
def facet_list_to_graph (facet_list : List (List Int)) : List (String × String) :=
  edgesAux 0 facet_list

/-- Embeds `out.split("\n")` character by character: k newline characters
give k + 1 pieces, empty pieces kept, exactly as Python's split with an
explicit separator. -/
def splitNl : List Char → List (List Char)
  | [] => [[]]
  | c :: rest =>
      if c = '\n' then [] :: splitNl rest
      else match splitNl rest with
        | [] => [[c]]
        | l :: ls => (c :: l) :: ls

/-- The decoded stdout as a list of lines: `proc.stdout.decode().split("\n")`. -/
def splitLines (s : String) : List String :=
  (splitNl s.data).map String.mk

/-- The whitespace characters Python's argument-less `str.split()` splits
on (the ASCII ones; exotic Unicode spaces do not occur in sampler output). -/
def isPySpace (c : Char) : Bool :=
  c == ' ' || c == '\t' || c == '\n' || c == '\x0b' || c == '\x0c' || c == '\r'

/-- Embeds argument-less `str.split()`: split on runs of whitespace and
discard empty pieces; `acc` holds the current token reversed. -/
def splitWsAux : List Char → List Char → List String
  | acc, [] => if acc.isEmpty then [] else [String.mk acc.reverse]
  | acc, c :: rest =>
      if isPySpace c then
        if acc.isEmpty then splitWsAux [] rest
        else String.mk acc.reverse :: splitWsAux [] rest
      else splitWsAux (c :: acc) rest

/-- Embeds `line.strip().split()` (the strip is subsumed: split() already
discards leading and trailing whitespace). -/
def pySplit (s : String) : List String :=
  splitWsAux [] s.data

/-- Parses a nonempty all-digit character list as a natural number, else
none. -/
def digitsToNat (cs : List Char) : Option Nat :=
  match cs with
  | [] => none
  | _ =>
      if cs.all (fun c => c.isDigit) then
        some (cs.foldl (fun n c => 10 * n + (c.toNat - 48)) 0)
      else none

/-- Embeds Python `int(x)` on a token: an optional sign followed by digits
parses, anything else raises ValueError, modelled as none.  (Python
additionally accepts underscore digit-group separators and non-ASCII
digits, which sampler output never contains.) -/
def pyInt (t : String) : Option Int :=
  match t.data with
  | '-' :: rest => (digitsToNat rest).map fun n => -(n : Int)
  | '+' :: rest => (digitsToNat rest).map fun n => (n : Int)
  | cs => (digitsToNat cs).map fun n => (n : Int)

/-- Embeds `[int(x) for x in line.strip().split()]`: every token must parse
as an integer; a single bad token makes `int` raise ValueError, modelled as
none. -/
def parseLine (line : String) : Option (List Int) :=
  (pySplit line).mapM pyInt

/-- Embeds `line.find("#") == 0`: the line's first character is '#'. -/
def isMarker (line : String) : Bool :=
  match line.data with
  | [] => false
  | c :: _ => c == '#'

/-- Embeds the accumulation loop of the notebook's generator
`rejection_sampling(command)`: a marker line yields the facet list
accumulated so far and resets it, any other line is parsed and appended —
and a line that fails to parse raises ValueError out of the generator,
modelled as none; the final accumulated list is yielded at the end. -/
def splitSamplesAux : List (List Int) → List String → Option (List (List (List Int)))
  | cur, [] => some [cur]
  | cur, line :: rest =>
      if isMarker line then (splitSamplesAux [] rest).map fun l => cur :: l
      else (parseLine line).bind fun facet => splitSamplesAux (cur ++ [facet]) rest

/-- Embeds the notebook's generator `rejection_sampling(command)` applied to
the decoded stdout string: split on newlines, drop the first and last
lines (`[1:-1]`), then split into samples at the '#' marker lines; none
models a ValueError escaping the generator.  (The subprocess call itself is
external; the function is modelled on its parsed string input.) -/
def rejection_sampling (out : String) : Option (List (List (List Int))) :=
  splitSamplesAux [] (((splitLines out).drop 1).dropLast)

instance {e a : Type} [DecidableEq e] [DecidableEq a] : DecidableEq (Except e a) := fun a b =>
  match a, b with
  | .ok x, .ok y => if h : x = y then .isTrue (by simp [h]) else .isFalse (by simp [h])
  | .error x, .error y => if h : x = y then .isTrue (by simp [h]) else .isFalse (by simp [h])
  | .ok _, .error _ => .isFalse (by simp)
  | .error _, .ok _ => .isFalse (by simp)

theorem getD_set_eq {l : List (Multiset Nat)} {i : Nat} (x : Multiset Nat) (h : i < l.length) :
    (l.set i x).getD i 0 = x := by
  rw [List.getD_eq_getElem _ _ (by simpa using h)]
  exact List.getElem_set_self _

theorem getD_set_ne {l : List (Multiset Nat)} {i j : Nat} (x : Multiset Nat) (h : i ≠ j) :
    (l.set i x).getD j 0 = l.getD j 0 := by
  by_cases hj : j < l.length
  · rw [List.getD_eq_getElem _ _ (by simpa using hj), List.getD_eq_getElem _ _ hj]
    exact List.getElem_set_ne h _
  · rw [List.getD_eq_default _ _ (by simpa using Nat.le_of_not_lt hj),
      List.getD_eq_default _ _ (Nat.le_of_not_lt hj)]

theorem set_getD_self {l : List (Multiset Nat)} {i : Nat} (h : i < l.length) :
    l.set i (l.getD i 0) = l := by
  apply List.ext_getElem (by simp)
  intro j h1 h2
  by_cases hij : i = j
  · subst hij
    rw [List.getElem_set_self, List.getD_eq_getElem _ _ h]
  · rw [List.getElem_set_ne hij]

theorem noMultiMembership_iff (s : List Nat) (C : RawConfig) :
    noMultiMembership s C = true ↔ (C.length = s.length ∧ CheckA s C) := by
  unfold noMultiMembership CheckA
  rw [Bool.and_eq_true, beq_iff_eq, List.all_eq_true]
  constructor
  · rintro ⟨hlen, h⟩
    refine ⟨hlen, fun f hf => ?_⟩
    have hfc : f < C.length := by omega
    have hfz : f < (C.zip s).length := by rw [List.length_zip]; omega
    have := h ((C.zip s)[f]) (List.getElem_mem hfz)
    rw [List.getElem_zip] at this
    rw [List.getD_eq_getElem _ _ hfc, List.getD_eq_getElem _ _ hf]
    exact beq_iff_eq.mp this
  · rintro ⟨hlen, h⟩
    refine ⟨hlen, fun x hx => ?_⟩
    obtain ⟨f, hfz, rfl⟩ := List.mem_iff_getElem.mp hx
    have hfc : f < C.length := by rw [List.length_zip] at hfz; omega
    have hfs : f < s.length := by rw [List.length_zip] at hfz; omega
    rw [List.getElem_zip]
    have := h f hfs
    rw [List.getD_eq_getElem _ _ hfc, List.getD_eq_getElem _ _ hfs] at this
    exact beq_iff_eq.mpr this

theorem noDuplicateFacets_iff (L : List (Finset Nat)) :
    noDuplicateFacets L = true ↔ L.Pairwise (· ≠ ·) := by
  induction L with
  | nil => simp [noDuplicateFacets]
  | cons F rest ih =>
      rw [noDuplicateFacets, Bool.and_eq_true, List.all_eq_true, List.pairwise_cons, ih]
      constructor
      · rintro ⟨h1, h2⟩
        exact ⟨fun G hG => by simpa using h1 G hG, h2⟩
      · rintro ⟨h1, h2⟩
        exact ⟨fun G hG => by simpa using h1 G hG, h2⟩

theorem noContainment_iff (L : List (Finset Nat)) :
    noContainment L = true ↔ L.Pairwise (fun F G => ¬ F ⊆ G ∧ ¬ G ⊆ F) := by
  induction L with
  | nil => simp [noContainment]
  | cons F rest ih =>
      rw [noContainment, Bool.and_eq_true, List.all_eq_true, List.pairwise_cons, ih]
      constructor
      · rintro ⟨h1, h2⟩
        refine ⟨fun G hG => ?_, h2⟩
        have := h1 G hG
        rw [Bool.and_eq_true] at this
        exact ⟨by simpa using this.1, by simpa using this.2⟩
      · rintro ⟨h1, h2⟩
        refine ⟨fun G hG => ?_, h2⟩
        rw [Bool.and_eq_true]
        exact ⟨by simpa using (h1 G hG).1, by simpa using (h1 G hG).2⟩

theorem facetSets_getElem (C : RawConfig) (i : Nat) (h : i < (facetSets C).length) :
    (facetSets C)[i] = (C.getD i 0).toFinset := by
  have hc : i < C.length := by simpa [facetSets] using h
  simp only [facetSets, List.getElem_map]
  rw [List.getD_eq_getElem _ _ hc]

theorem noDuplicateFacets_iff_checkB (C : RawConfig) :
    noDuplicateFacets (facetSets C) = true ↔ CheckB C := by
  rw [noDuplicateFacets_iff, List.pairwise_iff_getElem]
  have hl : (facetSets C).length = C.length := by simp [facetSets]
  constructor
  · intro h i hi j hj hne
    rcases Nat.lt_or_ge i j with hij | hij
    · have := h i j (by omega) (by omega) hij
      rwa [facetSets_getElem C i (by omega), facetSets_getElem C j (by omega)] at this
    · have hij' : j < i := by omega
      have := h j i (by omega) (by omega) hij'
      rw [facetSets_getElem C j (by omega), facetSets_getElem C i (by omega)] at this
      exact fun hEq => this hEq.symm
  · intro h i j hi hj hij
    rw [facetSets_getElem C i (by omega), facetSets_getElem C j (by omega)]
    exact h i (by omega) j (by omega) (by omega)

theorem noContainment_iff_checkC (C : RawConfig) :
    noContainment (facetSets C) = true ↔ CheckC C := by
  rw [noContainment_iff, List.pairwise_iff_getElem]
  have hl : (facetSets C).length = C.length := by simp [facetSets]
  constructor
  · intro h i hi j hj hne
    rcases Nat.lt_or_ge i j with hij | hij
    · have := h i j (by omega) (by omega) hij
      rw [facetSets_getElem C i (by omega), facetSets_getElem C j (by omega)] at this
      exact this.1
    · have hij' : j < i := by omega
      have := h j i (by omega) (by omega) hij'
      rw [facetSets_getElem C j (by omega), facetSets_getElem C i (by omega)] at this
      exact this.2
  · intro h i j hi hj hij
    rw [facetSets_getElem C i (by omega), facetSets_getElem C j (by omega)]
    exact ⟨h i (by omega) j (by omega) (by omega), h j (by omega) i (by omega) (by omega)⟩

theorem checkValidity_iff (s : List Nat) (C : RawConfig) (hlen : C.length = s.length) :
    checkValidity s C = true ↔ (CheckA s C ∧ CheckB C ∧ CheckC C) := by
  unfold checkValidity
  rw [Bool.and_eq_true, Bool.and_eq_true, noMultiMembership_iff,
    noDuplicateFacets_iff_checkB, noContainment_iff_checkC]
  tauto

theorem rejectionAux_error_iff (s : List Nat) (cand : Nat → RawConfig) (fuel start : Nat) :
    rejectionAux s cand fuel start = .error .samplingExhausted ↔
      ∀ j < fuel, checkValidity s (cand (start + j)) = false := by
  induction fuel generalizing start with
  | zero => simp [rejectionAux]
  | succ n ih =>
      rw [rejectionAux]
      by_cases hc : checkValidity s (cand start) = true
      · rw [if_pos hc]
        simp only [reduceCtorEq, false_iff]
        intro h
        have := h 0 (Nat.succ_pos n)
        rw [Nat.add_zero] at this
        simp [hc] at this
      · rw [if_neg hc, ih (start + 1)]
        constructor
        · intro h j hj
          rcases Nat.eq_zero_or_pos j with rfl | hj0
          · rw [Nat.add_zero]
            exact Bool.eq_false_iff.mpr hc
          · have := h (j - 1) (by omega)
            have harg : start + 1 + (j - 1) = start + j := by omega
            rwa [harg] at this
        · intro h j hj
          have := h (j + 1) (by omega)
          have harg : start + (j + 1) = start + 1 + j := by omega
          rwa [harg] at this

theorem rejectionAux_ok (s : List Nat) (cand : Nat → RawConfig) (fuel start : Nat)
    (c : RawConfig) (h : rejectionAux s cand fuel start = .ok c) :
    ∃ j < fuel, c = cand (start + j) ∧ checkValidity s (cand (start + j)) = true ∧
      ∀ l < j, checkValidity s (cand (start + l)) = false := by
  induction fuel generalizing start with
  | zero => simp [rejectionAux] at h
  | succ n ih =>
      rw [rejectionAux] at h
      by_cases hc : checkValidity s (cand start) = true
      · rw [if_pos hc] at h
        injection h with h'
        refine ⟨0, Nat.succ_pos n, ?_, ?_, ?_⟩
        · rw [Nat.add_zero]
          exact h'.symm
        · rwa [Nat.add_zero]
        · intro l hl
          exact absurd hl (by omega)
      · rw [if_neg hc] at h
        obtain ⟨j, hj, hcj, hcheck, hfirst⟩ := ih (start + 1) h
        refine ⟨j + 1, by omega, ?_, ?_, ?_⟩
        · rwa [show start + (j + 1) = start + 1 + j by omega]
        · rwa [show start + (j + 1) = start + 1 + j by omega]
        · intro l hl
          rcases Nat.eq_zero_or_pos l with rfl | hl0
          · rw [Nat.add_zero]
            exact Bool.eq_false_iff.mpr hc
          · have := hfirst (l - 1) (by omega)
            rwa [show start + 1 + (l - 1) = start + l by omega] at this

theorem buildConfig_length (s stubs : List Nat) : (buildConfig s stubs).length = s.length := by
  induction s generalizing stubs with
  | nil => rfl
  | cons k s' ih => simp [buildConfig, ih]

theorem buildConfig_card (s stubs : List Nat) (h : s.sum ≤ stubs.length) :
    ∀ f < s.length, Multiset.card ((buildConfig s stubs).getD f 0) = s.getD f 0 := by
  induction s generalizing stubs with
  | nil =>
      intro f hf
      simp at hf
  | cons k s' ih =>
      intro f hf
      rw [List.sum_cons] at h
      match f with
      | 0 =>
          rw [buildConfig, List.getD_cons_zero, List.getD_cons_zero]
          simp only [Multiset.coe_card]
          rw [List.length_take]
          omega
      | g + 1 =>
          rw [buildConfig, List.getD_cons_succ, List.getD_cons_succ]
          apply ih (stubs.drop k) (by rw [List.length_drop]; omega)
          simpa using hf

theorem vertexDegree_buildConfig (s stubs : List Nat) (v : Nat) :
    vertexDegree (buildConfig s stubs) v = (stubs.take s.sum).count v := by
  induction s generalizing stubs with
  | nil => simp [buildConfig, vertexDegree]
  | cons k s' ih =>
      have hh : vertexDegree (buildConfig (k :: s') stubs) v =
          Multiset.count v (↑(stubs.take k) : Multiset Nat) +
            vertexDegree (buildConfig s' (stubs.drop k)) v := by
        simp [buildConfig, vertexDegree]
      rw [hh, Multiset.coe_count, ih, List.sum_cons, List.take_add, List.count_append]

theorem length_vertexStubsAux (v0 : Nat) (d : List Nat) :
    (vertexStubsAux v0 d).length = d.sum := by
  induction d generalizing v0 with
  | nil => rfl
  | cons k rest ih => simp [vertexStubsAux, ih]

theorem count_vertexStubsAux (v0 v : Nat) (d : List Nat) :
    (vertexStubsAux v0 d).count v = if v0 ≤ v then d.getD (v - v0) 0 else 0 := by
  induction d generalizing v0 with
  | nil => simp [vertexStubsAux]
  | cons k rest ih =>
      rw [vertexStubsAux, List.count_append, ih (v0 + 1), List.count_replicate]
      by_cases h0 : v = v0
      · subst h0
        rw [if_pos (beq_self_eq_true v)]
        simp [show ¬ (v + 1 ≤ v) by omega, show v - v = 0 by omega]
      · rw [if_neg (by simp [Ne.symm h0])]
        by_cases h1 : v0 ≤ v
        · have h2 : v0 + 1 ≤ v := by omega
          rw [if_pos h2, if_pos h1]
          have hv : v - v0 = (v - (v0 + 1)) + 1 := by omega
          rw [hv, List.getD_cons_succ]
          omega
        · rw [if_neg (by omega), if_neg h1]

theorem count_vertexStubs (d : List Nat) (v : Nat) :
    (vertexStubs d).count v = d.getD v 0 := by
  rw [vertexStubs, count_vertexStubsAux]
  simp

theorem length_vertexStubs (d : List Nat) : (vertexStubs d).length = d.sum :=
  length_vertexStubsAux 0 d

theorem nodup_of_cards (F : Multiset Nat) (k : Nat) (h1 : Multiset.card F = k)
    (h2 : F.toFinset.card = k) : F.Nodup := by
  apply Multiset.toFinset_card_eq_card_iff_nodup.mp
  rw [h1, h2]

theorem count_eq_of_nodup (F : Multiset Nat) (h : F.Nodup) (v : Nat) :
    Multiset.count v F = if v ∈ F then 1 else 0 := by
  by_cases hm : v ∈ F
  · rw [if_pos hm]
    exact Nat.le_antisymm (Multiset.nodup_iff_count_le_one.mp h v)
      (Multiset.one_le_count_iff_mem.mpr hm)
  · rw [if_neg hm]
    exact Multiset.count_eq_zero.mpr hm

theorem facetCount_eq_vertexDegree (C : RawConfig) (h : ∀ F ∈ C, F.Nodup) (v : Nat) :
    facetCount C v = vertexDegree C v := by
  induction C with
  | nil => rfl
  | cons F rest ih =>
      have hF : F.Nodup := h F (List.mem_cons_self F rest)
      have hrest : ∀ G ∈ rest, G.Nodup := fun G hG => h G (List.mem_cons_of_mem F hG)
      unfold facetCount vertexDegree
      rw [List.countP_cons, List.map_cons, List.sum_cons]
      unfold facetCount vertexDegree at ih
      rw [ih hrest, count_eq_of_nodup F hF v]
      by_cases hm : v ∈ F
      · rw [if_pos hm, if_pos (by simpa using hm)]
        omega
      · rw [if_neg hm, if_neg (by simpa using hm)]
        omega

theorem invariants_of_chainInv (d s : List Nat) (C : RawConfig) (h : ChainInv d s C) :
    Invariants d s C := by
  obtain ⟨hdeg, hlen, hcard, hcheck⟩ := h
  obtain ⟨hA, hB, hC⟩ := (checkValidity_iff s C hlen).mp hcheck
  have hnodup : ∀ F ∈ C, F.Nodup := by
    intro F hF
    obtain ⟨i, hi, rfl⟩ := List.mem_iff_getElem.mp hF
    have his : i < s.length := by omega
    apply nodup_of_cards _ (s.getD i 0)
    · rw [← List.getD_eq_getElem C 0 hi]
      exact hcard i his
    · rw [← List.getD_eq_getElem C 0 hi]
      exact hA i his
  refine ⟨fun v => ?_, hlen, hA, hB, hC⟩
  rw [facetCount_eq_vertexDegree C hnodup v]
  exact hdeg v

theorem chainInv_builder (d s : List Nat) (p : List Nat) (hsum : d.sum = s.sum)
    (hp : p.Perm (vertexStubs d)) (hcheck : checkValidity s (buildConfig s p) = true) :
    ChainInv d s (buildConfig s p) := by
  have hplen : p.length = s.sum := by
    rw [hp.length_eq, length_vertexStubs, hsum]
  refine ⟨fun v => ?_, buildConfig_length s p, ?_, hcheck⟩
  · rw [vertexDegree_buildConfig, List.take_of_length_le (by omega),
      hp.count_eq v, count_vertexStubs]
  · exact buildConfig_card s p (by omega)

theorem vertexDegree_set (l : List (Multiset Nat)) (i : Nat) (x : Multiset Nat) (v : Nat)
    (h : i < l.length) :
    vertexDegree (l.set i x) v + Multiset.count v (l.getD i 0) =
      vertexDegree l v + Multiset.count v x := by
  induction l generalizing i with
  | nil => simp at h
  | cons F rest ih =>
      match i with
      | 0 =>
          unfold vertexDegree
          rw [List.set_cons_zero, List.getD_cons_zero, List.map_cons, List.map_cons,
            List.sum_cons, List.sum_cons]
          omega
      | j + 1 =>
          unfold vertexDegree
          rw [List.set_cons_succ, List.getD_cons_succ, List.map_cons, List.map_cons,
            List.sum_cons, List.sum_cons]
          unfold vertexDegree at ih
          have := ih j (by simpa using h)
          omega

theorem applySwap_length (C : RawConfig) (f1 f2 v1 v2 : Nat) :
    (applySwap C f1 f2 v1 v2).length = C.length := by
  unfold applySwap
  rw [List.length_set, List.length_set]

theorem applySwap_getD_f1 (C : RawConfig) (f1 f2 v1 v2 : Nat) (hf1 : f1 < C.length)
    (hne : f1 ≠ f2) :
    (applySwap C f1 f2 v1 v2).getD f1 0 = v2 ::ₘ (C.getD f1 0).erase v1 := by
  unfold applySwap
  rw [getD_set_ne _ (Ne.symm hne), getD_set_eq _ hf1]

theorem applySwap_getD_f2 (C : RawConfig) (f1 f2 v1 v2 : Nat) (hf2 : f2 < C.length) :
    (applySwap C f1 f2 v1 v2).getD f2 0 = v1 ::ₘ (C.getD f2 0).erase v2 := by
  unfold applySwap
  rw [getD_set_eq _ (by rw [List.length_set]; exact hf2)]

theorem applySwap_getD_other (C : RawConfig) (f1 f2 v1 v2 f : Nat) (h1 : f ≠ f1)
    (h2 : f ≠ f2) :
    (applySwap C f1 f2 v1 v2).getD f 0 = C.getD f 0 := by
  unfold applySwap
  rw [getD_set_ne _ (Ne.symm h2), getD_set_ne _ (Ne.symm h1)]

theorem applySwap_card (C : RawConfig) (f1 f2 v1 v2 : Nat) (hf1 : f1 < C.length)
    (hf2 : f2 < C.length) (hne : f1 ≠ f2) (hv1 : v1 ∈ C.getD f1 0)
    (hv2 : v2 ∈ C.getD f2 0) :
    ∀ f, Multiset.card ((applySwap C f1 f2 v1 v2).getD f 0) =
      Multiset.card (C.getD f 0) := by
  intro f
  by_cases h1 : f = f1
  · subst h1
    rw [applySwap_getD_f1 C f f2 v1 v2 hf1 hne, Multiset.card_cons,
      Multiset.card_erase_of_mem hv1, Nat.pred_eq_sub_one]
    have : 0 < Multiset.card (C.getD f 0) := Multiset.card_pos.mpr (by
      intro hq
      rw [hq] at hv1
      exact absurd hv1 (Multiset.not_mem_zero v1))
    omega
  · by_cases h2 : f = f2
    · subst h2
      rw [applySwap_getD_f2 C f1 f v1 v2 hf2, Multiset.card_cons,
        Multiset.card_erase_of_mem hv2, Nat.pred_eq_sub_one]
      have : 0 < Multiset.card (C.getD f 0) := Multiset.card_pos.mpr (by
        intro hq
        rw [hq] at hv2
        exact absurd hv2 (Multiset.not_mem_zero v2))
      omega
    · rw [applySwap_getD_other C f1 f2 v1 v2 f h1 h2]

theorem applySwap_degree (C : RawConfig) (f1 f2 v1 v2 : Nat) (hf1 : f1 < C.length)
    (hf2 : f2 < C.length) (hne : f1 ≠ f2) (hv1 : v1 ∈ C.getD f1 0)
    (hv2 : v2 ∈ C.getD f2 0) (v : Nat) :
    vertexDegree (applySwap C f1 f2 v1 v2) v = vertexDegree C v := by
  unfold applySwap
  have e1 := vertexDegree_set C f1 (v2 ::ₘ (C.getD f1 0).erase v1) v hf1
  have e2 := vertexDegree_set (C.set f1 (v2 ::ₘ (C.getD f1 0).erase v1)) f2
    (v1 ::ₘ (C.getD f2 0).erase v2) v (by rw [List.length_set]; exact hf2)
  rw [getD_set_ne _ hne] at e2
  have key : (v2 ::ₘ (C.getD f1 0).erase v1) + (v1 ::ₘ (C.getD f2 0).erase v2) =
      C.getD f1 0 + C.getD f2 0 := by
    conv_rhs => rw [← Multiset.cons_erase hv1, ← Multiset.cons_erase hv2]
    simp only [Multiset.cons_add, Multiset.add_cons]
    rw [Multiset.cons_swap]
  have key2 : Multiset.count v (v2 ::ₘ (C.getD f1 0).erase v1) +
      Multiset.count v (v1 ::ₘ (C.getD f2 0).erase v2) =
      Multiset.count v (C.getD f1 0) + Multiset.count v (C.getD f2 0) := by
    rw [← Multiset.count_add, ← Multiset.count_add, key]
  omega

theorem applySwap_involutive (C : RawConfig) (f1 f2 v1 v2 : Nat) (hf1 : f1 < C.length)
    (hf2 : f2 < C.length) (hne : f1 ≠ f2) (hv1 : v1 ∈ C.getD f1 0)
    (hv2 : v2 ∈ C.getD f2 0) :
    applySwap (applySwap C f1 f2 v1 v2) f1 f2 v2 v1 = C := by
  have hg1 : (applySwap C f1 f2 v1 v2).getD f1 0 = v2 ::ₘ (C.getD f1 0).erase v1 :=
    applySwap_getD_f1 C f1 f2 v1 v2 hf1 hne
  have hg2 : (applySwap C f1 f2 v1 v2).getD f2 0 = v1 ::ₘ (C.getD f2 0).erase v2 :=
    applySwap_getD_f2 C f1 f2 v1 v2 hf2
  show ((applySwap C f1 f2 v1 v2).set f1
      (v1 ::ₘ ((applySwap C f1 f2 v1 v2).getD f1 0).erase v2)).set f2
      (v2 ::ₘ ((applySwap C f1 f2 v1 v2).getD f2 0).erase v1) = C
  rw [hg1, hg2, Multiset.erase_cons_head, Multiset.erase_cons_head,
    Multiset.cons_erase hv1, Multiset.cons_erase hv2]
  show (((C.set f1 (v2 ::ₘ (C.getD f1 0).erase v1)).set f2
      (v1 ::ₘ (C.getD f2 0).erase v2)).set f1 (C.getD f1 0)).set f2 (C.getD f2 0) = C
  rw [List.set_comm _ _ _ (Ne.symm hne), List.set_set, List.set_set,
    set_getD_self hf1, set_getD_self hf2]

theorem admissibleB_iff (C : RawConfig) (p : SwapMove) :
    admissibleB C p = true ↔
      (p.f1 < C.length ∧ p.f2 < C.length ∧ p.f1 ≠ p.f2 ∧
        p.v1 ∈ C.getD p.f1 0 ∧ p.v2 ∈ C.getD p.f2 0 ∧ p.v1 ≠ p.v2) := by
  unfold admissibleB
  simp [Bool.and_eq_true, and_assoc]

theorem chainInv_mcmcStep (d s : List Nat) (C : RawConfig) (p : SwapMove)
    (h : ChainInv d s C) : ChainInv d s (mcmcStep s C p) := by
  unfold mcmcStep
  by_cases ha : admissibleB C p = true
  · rw [if_pos ha]
    by_cases hc : checkValidity s (applySwap C p.f1 p.f2 p.v1 p.v2) = true
    · simp only [hc, if_true]
      obtain ⟨ha1, ha2, ha3, ha4, ha5, ha6⟩ := (admissibleB_iff C p).mp ha
      obtain ⟨hdeg, hlen, hcard, hcheck⟩ := h
      refine ⟨fun v => ?_, ?_, fun f hf => ?_, hc⟩
      · rw [applySwap_degree C p.f1 p.f2 p.v1 p.v2 ha1 ha2 ha3 ha4 ha5 v]
        exact hdeg v
      · rw [applySwap_length]
        exact hlen
      · rw [applySwap_card C p.f1 p.f2 p.v1 p.v2 ha1 ha2 ha3 ha4 ha5 f]
        exact hcard f hf
    · simp only [hc, if_false]
      exact h
  · rw [if_neg ha]
    exact h

theorem chainInv_mcmcStates (d s : List Nat) (C0 : RawConfig)
    (props : Nat → RawConfig → SwapMove) (h : ChainInv d s C0) (k : Nat) :
    ChainInv d s (mcmcStates s C0 props k) := by
  induction k with
  | zero => exact h
  | succ n ih => exact chainInv_mcmcStep d s _ _ ih

theorem chainInv_mem_mcmcSamples (d s : List Nat) (C0 : RawConfig)
    (props : Nat → RawConfig → SwapMove) (burnIn thin numSamples : Nat)
    (h : ChainInv d s C0) (c : RawConfig)
    (hc : c ∈ mcmcSamples s C0 props burnIn thin numSamples) : ChainInv d s c := by
  unfold mcmcSamples at hc
  obtain ⟨i, _, rfl⟩ := List.mem_map.mp hc
  exact chainInv_mcmcStates d s C0 props h _

theorem anyNonPos_iff (l : List Int) :
    (l.any fun x => decide (x ≤ 0)) = true ↔ ∃ x ∈ l, x ≤ 0 := by
  rw [List.any_eq_true]
  simp

theorem anyGt_iff (l : List Int) (n : Int) :
    (l.any fun x => decide (n < x)) = true ↔ ∃ x ∈ l, n < x := by
  rw [List.any_eq_true]
  simp

theorem validateSequences_error_iff (d s : List Int) :
    validateSequences d s = .error .infeasibleSequence ↔ InfeasibleCond d s := by
  unfold validateSequences InfeasibleCond
  split_ifs with h1 h2 h3 h4 h5
  · simp only [true_iff]
    exact Or.inl h1
  · simp only [true_iff]
    exact Or.inr (Or.inl ((anyNonPos_iff d).mp h2))
  · simp only [true_iff]
    exact Or.inr (Or.inr (Or.inl ((anyNonPos_iff s).mp h3)))
  · simp only [true_iff]
    exact Or.inr (Or.inr (Or.inr (Or.inl ((anyGt_iff s _).mp h4))))
  · simp only [true_iff]
    exact Or.inr (Or.inr (Or.inr (Or.inr ((anyGt_iff d _).mp h5))))
  · simp only [reduceCtorEq, false_iff]
    intro hc
    rcases hc with hc | hc | hc | hc | hc
    · exact h1 hc
    · exact h2 ((anyNonPos_iff d).mpr hc)
    · exact h3 ((anyNonPos_iff s).mpr hc)
    · exact h4 ((anyGt_iff s _).mpr hc)
    · exact h5 ((anyGt_iff d _).mpr hc)

theorem validateSequences_cases (d s : List Int) :
    validateSequences d s = .error .infeasibleSequence ∨ validateSequences d s = .ok (d, s) := by
  unfold validateSequences
  split_ifs <;> simp

theorem validateSequences_ok (d s : List Int) (h : ¬ InfeasibleCond d s) :
    validateSequences d s = .ok (d, s) := by
  rcases validateSequences_cases d s with he | hk
  · exact absurd ((validateSequences_error_iff d s).mp he) h
  · exact hk

theorem runRejection_of_validate_error (d s : List Int) (e : SCMError)
    (h : validateSequences d s = .error e) (seed cap : Nat) :
    runRejection d s seed cap = .error e := by
  unfold runRejection
  rw [h]

theorem runMCMC_of_validate_error (d s : List Int) (e : SCMError)
    (h : validateSequences d s = .error e) (seed cap burnIn thin numSamples : Nat) :
    runMCMC d s seed cap burnIn thin numSamples = .error e := by
  unfold runMCMC
  rw [runRejection_of_validate_error d s e h seed cap]

theorem vName_ne_fName (v : Int) (f : Nat) : vName v ≠ fName f := by
  intro h
  have h2 := congrArg String.data h
  unfold vName fName at h2
  simp [String.data_append] at h2

theorem mem_edgesAux (f0 : Nat) (fl : List (List Int)) (e : String × String)
    (h : e ∈ edgesAux f0 fl) : ∃ v f, e = (vName v, fName f) := by
  induction fl generalizing f0 with
  | nil => simp [edgesAux] at h
  | cons facet rest ih =>
      rw [edgesAux] at h
      rcases List.mem_append.mp h with h1 | h2
      · obtain ⟨v, _, rfl⟩ := List.mem_map.mp h1
        exact ⟨v, f0, rfl⟩
      · exact ih (f0 + 1) h2

theorem splitSamplesAux_some (cur : List (List Int)) (lines : List String)
    (r : List (List (List Int))) (h : splitSamplesAux cur lines = some r) :
    r.length = lines.countP isMarker + 1 := by
  induction lines generalizing cur r with
  | nil =>
      rw [splitSamplesAux] at h
      injection h with h2
      rw [← h2]
      simp
  | cons line rest ih =>
      rw [splitSamplesAux] at h
      rw [List.countP_cons]
      by_cases hm : isMarker line = true
      · rw [if_pos hm] at h
        rcases hq : splitSamplesAux ([] : List (List Int)) rest with _ | l
        · rw [hq] at h
          simp at h
        · rw [hq] at h
          simp only [Option.map_some'] at h
          injection h with h2
          rw [← h2, List.length_cons, ih [] l hq]
          simp [hm]
      · rw [if_neg hm] at h
        rcases hp : parseLine line with _ | facet
        · rw [hp, Option.none_bind] at h
          exact absurd h (by simp)
        · rw [hp, Option.some_bind] at h
          rw [ih _ r h]
          simp [hm]

theorem splitSamplesAux_none_iff (cur : List (List Int)) (lines : List String) :
    splitSamplesAux cur lines = none ↔
      ∃ line ∈ lines, isMarker line = false ∧ parseLine line = none := by
  induction lines generalizing cur with
  | nil => simp [splitSamplesAux]
  | cons line rest ih =>
      rw [splitSamplesAux]
      by_cases hm : isMarker line = true
      · rw [if_pos hm, Option.map_eq_none', ih []]
        constructor
        · rintro ⟨l, hl, h1, h2⟩
          exact ⟨l, List.mem_cons_of_mem _ hl, h1, h2⟩
        · rintro ⟨l, hl, h1, h2⟩
          rcases List.mem_cons.mp hl with rfl | hl2
          · rw [hm] at h1
            exact absurd h1 (by simp)
          · exact ⟨l, hl2, h1, h2⟩
      · rw [if_neg hm]
        have hm2 : isMarker line = false := Bool.eq_false_iff.mpr hm
        rcases hp : parseLine line with _ | facet
        · rw [Option.none_bind]
          constructor
          · intro _
            exact ⟨line, List.mem_cons_self line rest, hm2, hp⟩
          · intro _
            rfl
        · rw [Option.some_bind, ih (cur ++ [facet])]
          constructor
          · rintro ⟨l, hl, h1, h2⟩
            exact ⟨l, List.mem_cons_of_mem _ hl, h1, h2⟩
          · rintro ⟨l, hl, h1, h2⟩
            rcases List.mem_cons.mp hl with rfl | hl2
            · rw [hp] at h2
              exact absurd h2 (by simp)
            · exact ⟨l, hl2, h1, h2⟩

/-- C1: every Configuration emitted by the Rejection Sampler, or by the MCMC
Sampler seeded from it, for a pair (d, s) with balanced stub totals and
candidates built from random permutations of the vertex-stub sequence,
satisfies the invariants: every vertex lies in exactly d[v] facets, every
facet's realized vertex set has exactly s[f] elements, no two facets have
identical vertex sets, and no facet's vertex set is contained in another's. -/
theorem scm_C1 (d s : List Nat) (perms : Nat → List Nat) (hsum : d.sum = s.sum)
    (hperm : ∀ i, (perms i).Perm (vertexStubs d)) :
    (∀ cap c, rejectionSample s (fun i => buildConfig s (perms i)) cap = .ok c →
      Invariants d s c) ∧
    (∀ cap C0 props burnIn thin numSamples,
      rejectionSample s (fun i => buildConfig s (perms i)) cap = .ok C0 →
      ∀ c ∈ mcmcSamples s C0 props burnIn thin numSamples, Invariants d s c) := by
  have hrej : ∀ cap c, rejectionSample s (fun i => buildConfig s (perms i)) cap = .ok c →
      ChainInv d s c := by
    intro cap c hok
    obtain ⟨j, hj, hc, hcheck, hfirst⟩ :=
      rejectionAux_ok s (fun i => buildConfig s (perms i)) cap 0 c hok
    simp only [Nat.zero_add] at hc hcheck
    rw [hc]
    exact chainInv_builder d s (perms j) hsum (hperm j) hcheck
  constructor
  · intro cap c hok
    exact invariants_of_chainInv d s c (hrej cap c hok)
  · intro cap C0 props b t n hok c hc
    exact invariants_of_chainInv d s c
      (chainInv_mem_mcmcSamples d s C0 props b t n (hrej cap C0 hok) c hc)

theorem scm_C1_witness :
    ([1, 1] : List Nat).sum = ([2] : List Nat).sum ∧
      Invariants [1, 1] [2] (buildConfig [2] (vertexStubs [1, 1])) :=
  ⟨by decide,
    (scm_C1 [1, 1] [2] (fun _ => vertexStubs [1, 1]) (by decide)
        (fun _ => List.Perm.refl _)).1 1
      (buildConfig [2] (vertexStubs [1, 1])) (by decide)⟩

/-- C2: the Validity Checker, applied to a raw Configuration with one facet
per entry of s, returns valid exactly when checks (a), (b) and (c) of spec
section 4.3 all hold: deduplicated facet sizes match s, no two facets have
identical vertex-set content, and no facet's vertex set is a subset of
another facet's. -/
theorem scm_C2 (s : List Nat) (C : RawConfig) (hlen : C.length = s.length) :
    checkValidity s C = true ↔ (CheckA s C ∧ CheckB C ∧ CheckC C) :=
  checkValidity_iff s C hlen

theorem scm_C2_witness :
    (buildConfig [2, 2] [0, 1, 2, 3]).length = ([2, 2] : List Nat).length ∧
      (CheckA [2, 2] (buildConfig [2, 2] [0, 1, 2, 3]) ∧
        CheckB (buildConfig [2, 2] [0, 1, 2, 3]) ∧
        CheckC (buildConfig [2, 2] [0, 1, 2, 3])) :=
  ⟨by decide, (scm_C2 [2, 2] (buildConfig [2, 2] [0, 1, 2, 3]) (by decide)).mp (by decide)⟩

/-- C3: the Sequence Validator fails with InfeasibleSequence exactly when
the stub totals differ, an entry is non-positive, a size exceeds the vertex
count, or a degree exceeds the facet count; otherwise it returns the pair
unchanged; and both sampler pipelines surface a validation error before any
sampling is attempted. -/
theorem scm_C3 (d s : List Int) :
    (validateSequences d s = .error .infeasibleSequence ↔ InfeasibleCond d s) ∧
    (¬ InfeasibleCond d s → validateSequences d s = .ok (d, s)) ∧
    (∀ e seed cap, validateSequences d s = .error e →
      runRejection d s seed cap = .error e) ∧
    (∀ e seed cap burnIn thin numSamples, validateSequences d s = .error e →
      runMCMC d s seed cap burnIn thin numSamples = .error e) :=
  ⟨validateSequences_error_iff d s, validateSequences_ok d s,
    fun e seed cap h => runRejection_of_validate_error d s e h seed cap,
    fun e seed cap b t n h => runMCMC_of_validate_error d s e h seed cap b t n⟩

theorem scm_C3_witness :
    InfeasibleCond [1, 1] [3] ∧
      validateSequences [1, 1] [3] = .error .infeasibleSequence ∧
      runRejection [1, 1] [3] 0 5 = .error .infeasibleSequence := by
  have h := scm_C3 [1, 1] [3]
  have he : validateSequences [1, 1] [3] = .error .infeasibleSequence := by decide
  exact ⟨h.1.mp he, he, h.2.2.1 .infeasibleSequence 0 5 he⟩

/-- C4: the Rejection Sampler fails with SamplingExhausted exactly when none
of the at most cap candidates passes the Validity Checker; an ok result is
the first candidate that passes, and it always passed the checker (no
invalid or partial Configuration is returned). -/
theorem scm_C4 (s : List Nat) (cand : Nat → RawConfig) (cap : Nat) :
    (rejectionSample s cand cap = .error .samplingExhausted ↔
      ∀ i < cap, checkValidity s (cand i) = false) ∧
    (∀ c, rejectionSample s cand cap = .ok c →
      checkValidity s c = true ∧
        ∃ i < cap, c = cand i ∧ ∀ j < i, checkValidity s (cand j) = false) := by
  constructor
  · have h := rejectionAux_error_iff s cand cap 0
    simpa using h
  · intro c hok
    obtain ⟨j, hj, hc, hcheck, hfirst⟩ := rejectionAux_ok s cand cap 0 c hok
    simp only [Nat.zero_add] at hc hcheck hfirst
    exact ⟨hc ▸ hcheck, j, hj, hc, hfirst⟩

theorem scm_C4_witness :
    checkValidity [2] (buildConfig [2] [0, 1]) = true ∧
      ∃ i < 1, buildConfig [2] [0, 1] = (fun _ : Nat => buildConfig [2] [0, 1]) i ∧
        ∀ j < i, checkValidity [2] ((fun _ : Nat => buildConfig [2] [0, 1]) j) = false :=
  (scm_C4 [2] (fun _ => buildConfig [2] [0, 1]) 1).2 (buildConfig [2] [0, 1]) (by decide)

/-- C5: an admissible swap proposal (distinct facets f1 and f2, v1 a member
of facet f1, v2 a member of facet f2, v1 distinct from v2) preserves every
vertex's degree — its number of facet memberships counted with multiplicity,
i.e. its stub count — and every facet's number of members, so invariants
1-2 are untouched by construction. -/
theorem scm_C5 (C : RawConfig) (f1 f2 v1 v2 : Nat) (hf1 : f1 < C.length)
    (hf2 : f2 < C.length) (hne : f1 ≠ f2) (hv1 : v1 ∈ C.getD f1 0)
    (hv2 : v2 ∈ C.getD f2 0) (_hvne : v1 ≠ v2) :
    (∀ v, vertexDegree (applySwap C f1 f2 v1 v2) v = vertexDegree C v) ∧
    (applySwap C f1 f2 v1 v2).length = C.length ∧
    (∀ f, Multiset.card ((applySwap C f1 f2 v1 v2).getD f 0) =
      Multiset.card (C.getD f 0)) :=
  ⟨fun v => applySwap_degree C f1 f2 v1 v2 hf1 hf2 hne hv1 hv2 v,
    applySwap_length C f1 f2 v1 v2,
    applySwap_card C f1 f2 v1 v2 hf1 hf2 hne hv1 hv2⟩

theorem scm_C5_witness :
    vertexDegree (applySwap (buildConfig [2, 2] [0, 1, 2, 3]) 0 1 0 2) 2 =
        vertexDegree (buildConfig [2, 2] [0, 1, 2, 3]) 2 ∧
      (applySwap (buildConfig [2, 2] [0, 1, 2, 3]) 0 1 0 2).length =
        (buildConfig [2, 2] [0, 1, 2, 3]).length := by
  have h := scm_C5 (buildConfig [2, 2] [0, 1, 2, 3]) 0 1 0 2 (by decide) (by decide)
    (by decide) (by decide) (by decide) (by decide)
  exact ⟨h.1 2, h.2.1⟩

/-- C6: applying a swap proposal and then its symmetric counter-swap (v2
moved from facet f1 back to facet f2 and v1 moved from facet f2 back to
facet f1) yields exactly the original Configuration: the swap move is
self-inverse. -/
theorem scm_C6 (C : RawConfig) (f1 f2 v1 v2 : Nat) (hf1 : f1 < C.length)
    (hf2 : f2 < C.length) (hne : f1 ≠ f2) (hv1 : v1 ∈ C.getD f1 0)
    (hv2 : v2 ∈ C.getD f2 0) (_hvne : v1 ≠ v2) :
    applySwap (applySwap C f1 f2 v1 v2) f1 f2 v2 v1 = C :=
  applySwap_involutive C f1 f2 v1 v2 hf1 hf2 hne hv1 hv2

theorem scm_C6_witness :
    applySwap (applySwap (buildConfig [2, 2] [0, 1, 2, 3]) 0 1 0 2) 0 1 2 0 =
      buildConfig [2, 2] [0, 1, 2, 3] :=
  scm_C6 (buildConfig [2, 2] [0, 1, 2, 3]) 0 1 0 2 (by decide) (by decide) (by decide)
    (by decide) (by decide) (by decide)

/-- C7: in each MCMC chain step with an admissible proposal, the state
becomes exactly the proposal when it passes the Validity Checker and is
completely unchanged (a self-loop) otherwise; the sampler still emits
exactly numSamples configurations, so a rejected proposal is never
surfaced to the caller as an error. -/
theorem scm_C7 (s : List Nat) (C0 : RawConfig) (props : Nat → RawConfig → SwapMove)
    (k : Nat) (C : RawConfig) (p : SwapMove) (hC : C = mcmcStates s C0 props k)
    (hp : p = props k C) (hadm : admissibleB C p = true) :
    (checkValidity s (applySwap C p.f1 p.f2 p.v1 p.v2) = true →
      mcmcStates s C0 props (k + 1) = applySwap C p.f1 p.f2 p.v1 p.v2) ∧
    (checkValidity s (applySwap C p.f1 p.f2 p.v1 p.v2) = false →
      mcmcStates s C0 props (k + 1) = C) ∧
    (∀ burnIn thin numSamples,
      (mcmcSamples s C0 props burnIn thin numSamples).length = numSamples) := by
  subst hC
  subst hp
  refine ⟨fun hv => ?_, fun hv => ?_, fun b t n => ?_⟩
  · show mcmcStep s (mcmcStates s C0 props k) (props k (mcmcStates s C0 props k)) = _
    unfold mcmcStep
    rw [if_pos hadm, if_pos hv]
  · show mcmcStep s (mcmcStates s C0 props k) (props k (mcmcStates s C0 props k)) = _
    unfold mcmcStep
    rw [if_pos hadm, if_neg (by simp [hv])]
  · unfold mcmcSamples
    rw [List.length_map, List.length_range]

theorem scm_C7_witness :
    mcmcStates [2, 2] (buildConfig [2, 2] [0, 1, 2, 3]) (fun _ _ => ⟨0, 1, 0, 2⟩) 1 =
        applySwap (buildConfig [2, 2] [0, 1, 2, 3]) 0 1 0 2 ∧
      (mcmcSamples [2, 2] (buildConfig [2, 2] [0, 1, 2, 3]) (fun _ _ => ⟨0, 1, 0, 2⟩)
          3 2 5).length = 5 := by
  have h := scm_C7 [2, 2] (buildConfig [2, 2] [0, 1, 2, 3]) (fun _ _ => ⟨0, 1, 0, 2⟩) 0
    (buildConfig [2, 2] [0, 1, 2, 3]) ⟨0, 1, 0, 2⟩ rfl rfl (by decide)
  exact ⟨h.1 (by decide), h.2.2 3 2 5⟩

/-- C8: for a fixed random seed, fixed (d, s) and fixed sampling parameters,
two runs of either sampler pipeline produce identical output: the seeded
stream is the only source of randomness. -/
theorem scm_C8 (d s : List Int) (seed1 seed2 cap burnIn thin numSamples : Nat)
    (h : seed1 = seed2) :
    runRejection d s seed1 cap = runRejection d s seed2 cap ∧
    runMCMC d s seed1 cap burnIn thin numSamples =
      runMCMC d s seed2 cap burnIn thin numSamples := by
  subst h
  exact ⟨rfl, rfl⟩

theorem scm_C8_witness :
    runRejection [1, 1] [2] 42 3 = runRejection [1, 1] [2] 42 3 ∧
      runMCMC [1, 1] [2] 42 3 1 1 2 = runMCMC [1, 1] [2] 42 3 1 1 2 :=
  scm_C8 [1, 1] [2] 42 42 3 1 1 2 rfl

/-- C9: the graph built by facet_list_to_graph is bipartite by construction:
every edge joins a node named 'v' + str(v) to a node named 'f' + str(f),
and no edge joins two vertex-named nodes or two facet-named nodes. -/
theorem scm_C9 (facet_list : List (List Int)) (e : String × String)
    (h : e ∈ facet_list_to_graph facet_list) :
    (∃ v f, e = (vName v, fName f)) ∧
    (∀ v w : Int, e ≠ (vName v, vName w)) ∧
    (∀ f g : Nat, e ≠ (fName f, fName g)) := by
  obtain ⟨v, f, rfl⟩ := mem_edgesAux 0 facet_list e h
  refine ⟨⟨v, f, rfl⟩, ?_, ?_⟩
  · intro v' w hq
    have h2 := congrArg Prod.snd hq
    simp only at h2
    exact vName_ne_fName w f h2.symm
  · intro f' g hq
    have h2 := congrArg Prod.fst hq
    simp only at h2
    exact vName_ne_fName v f' h2

theorem scm_C9_witness :
    (∃ v f, ((vName 0, fName 0) : String × String) = (vName v, fName f)) ∧
      (∀ v w : Int, ((vName 0, fName 0) : String × String) ≠ (vName v, vName w)) ∧
      (∀ f g : Nat, ((vName 0, fName 0) : String × String) ≠ (fName f, fName g)) :=
  scm_C9 [[0]] (vName 0, fName 0) (by simp [facet_list_to_graph, edgesAux])

/-- C10 counterexample: for the decoded stdout "header\nfoo bar\nfooter"
the retained middle line contains no sample marker, so the claim predicts
exactly 0 + 1 = 1 yielded facet list; but int("foo") raises ValueError and
the generator aborts without completing a single yield (modelled as none). -/
theorem scm_C10_counterexample :
    rejection_sampling "header\nfoo bar\nfooter" = none ∧
      (((splitLines "header\nfoo bar\nfooter").drop 1).dropLast).countP isMarker + 1 = 1 := by
  constructor
  · decide
  · decide

/-- C10 (amended): when every retained non-marker line parses as a list of
integers, the sample-splitting parser yields exactly k + 1 facet lists,
where k is the number of lines beginning with '#' among the decoded
output's lines after the first and last are dropped — hence at least one,
even with no marker; otherwise some retained non-marker line fails int()
and the generator raises ValueError instead of yielding k + 1 lists, and
these are the only two outcomes. -/
theorem scm_C10 (out : String) :
    (∀ r, rejection_sampling out = some r →
      r.length = (((splitLines out).drop 1).dropLast).countP isMarker + 1 ∧
        1 ≤ r.length) ∧
    (rejection_sampling out = none ↔
      ∃ line ∈ ((splitLines out).drop 1).dropLast,
        isMarker line = false ∧ parseLine line = none) := by
  constructor
  · intro r h
    have h2 := splitSamplesAux_some [] (((splitLines out).drop 1).dropLast) r h
    exact ⟨h2, by omega⟩
  · exact splitSamplesAux_none_iff [] _

theorem scm_C10_witness :
    rejection_sampling "a\n1 2\n#x\n3\nf" = some [[[1, 2]], [[3]]] ∧
      ([[[1, 2]], [[3]]] : List (List (List Int))).length =
        (((splitLines "a\n1 2\n#x\n3\nf").drop 1).dropLast).countP isMarker + 1 :=
  ⟨by decide, ((scm_C10 "a\n1 2\n#x\n3\nf").1 [[[1, 2]], [[3]]] (by decide)).1⟩
